import Mathlib

/-!
Shallow embedding of the editing core of the `vegetor` terminal text editor
(src/editor/terminal.rs, src/editor/buffer.rs, src/editor/editarea.rs) and
verification of its specification.

Lines of text are represented as `List Char` (Unicode scalar values, exactly
Rust's `char`).  Rust `String` byte positions are recovered through UTF-8 byte
arithmetic (`Char.utf8Size` equals Rust's `char::len_utf8`), so that the
source's mixed byte/character indexing is modelled faithfully; an operation
that would panic in Rust (slicing or inserting at a non-boundary byte index,
`unwrap` on `None`) is modelled by an explicit `none` / `panic` result.
-/

set_option maxRecDepth 4000

namespace Vegetor

/-- `Location` (terminal.rs): an (x, y) character-cell coordinate. -/
structure Location where
  x : Nat
  y : Nat
deriving DecidableEq, Repr

/-- `Size` (terminal.rs): a (width, height) pair. -/
structure Size where
  width : Nat
  height : Nat
deriving DecidableEq, Repr

/-- `impl PartialOrd for Size` (terminal.rs 26-38): `Less`/`Greater` only when both
dimensions differ in the same direction, `Equal` when both agree, otherwise
incomparable (`None`). -/
def Size.partCmp (a b : Size) : Option Ordering :=
  if a.width < b.width ∧ a.height < b.height then some .lt
  else if b.width < a.width ∧ b.height < a.height then some .gt
  else if a.width = b.width ∧ a.height = b.height then some .eq
  else none

/-- The error kinds of `crate::error::Error` produced by the embedded operations
(io errors are at the excluded file-system boundary). -/
inductive Error where
  | printAreaSizeNotFit
  | caretOutOfHeight (caret height : Nat)
  | caretOutOfLen (caret len : Nat)
  | endOfFile
  | delAtBeginning
  | bufferSizeExceeds (bufferSize areaSize : Size)
deriving DecidableEq, Repr

deriving instance DecidableEq for Except

/-- Byte length of a line under UTF-8: Rust `String::len`. -/
def byteLen (l : List Char) : Nat := (l.map Char.utf8Size).sum

/-- Character count of a line: the `CharsCount` trait of lib.rs
(`str::chars().count()`). -/
def charsCount (l : List Char) : Nat := l.length

/-- Drop `n` leading bytes from a line: Rust `&line[n..]`.  `none` when `n` is not
a char boundary or exceeds the line's byte length (where Rust panics). -/
def dropBytes : List Char → Nat → Option (List Char)
  | l, 0 => some l
  | [], _ + 1 => none
  | c :: cs, n + 1 =>
      if n + 1 < c.utf8Size then none
      else dropBytes cs (n + 1 - c.utf8Size)

/-- Keep the first `n` bytes of a line: Rust `&line[..n]` (and `String::truncate`).
`none` when `n` is not a char boundary or exceeds the line (where Rust panics). -/
def takeBytes : List Char → Nat → Option (List Char)
  | _, 0 => some []
  | [], _ + 1 => none
  | c :: cs, n + 1 =>
      if n + 1 < c.utf8Size then none
      else (takeBytes cs (n + 1 - c.utf8Size)).map (c :: ·)

/-- `Buffer` (buffer.rs): the ordered text lines plus the caret. -/
structure Buffer where
  caret : Location
  lines : List (List Char)
deriving DecidableEq, Repr

/-- `Buffer::lines_num`. -/
def Buffer.lines_num (b : Buffer) : Nat := b.lines.length

/-- `Buffer::ensure_current_line` (state effect): append empty lines until the
caret's row exists. -/
def Buffer.ensure_current_line (b : Buffer) : Buffer :=
  if b.caret.y < b.lines.length then b
  else Buffer.ensure_current_line { b with lines := b.lines ++ [[]] }
termination_by b.caret.y + 1 - b.lines.length
decreasing_by
  simp only [List.length_append, List.length_cons, List.length_nil]
  omega

/-- `Buffer::new`: empty buffer made non-empty by `ensure_current_line`. -/
def Buffer.new : Buffer := Buffer.ensure_current_line ⟨⟨0, 0⟩, []⟩

/-- `Buffer::clear`: caret to (0,0), line store emptied. -/
def Buffer.clear (b : Buffer) : Buffer := { b with caret := ⟨0, 0⟩, lines := [] }

/-- `Buffer::seek_unchecked`. -/
def Buffer.seek_unchecked (b : Buffer) (c : Location) : Buffer := { b with caret := c }

/-- `Buffer::check_caret` (buffer.rs 98-109).  Vertically the caret row must be an
existing line; horizontally the bound is the line's **byte** length
(`line.unwrap().len()`), reached inclusively. -/
def Buffer.check_caret (b : Buffer) (caret : Location) : Except Error Unit :=
  if b.lines_num ≤ caret.y then
    .error (.caretOutOfHeight caret.y b.lines_num)
  else
    let line := b.lines.get? caret.y
    let len := match line with
      | none => 0
      | some l => byteLen l
    if len < caret.x then .error (.caretOutOfLen caret.x len)
    else .ok ()

/-- `Buffer::max_width`: byte length of the longest line (`max_by_key(|x| x.len())`,
0 for an empty line store). -/
def Buffer.max_width (b : Buffer) : Nat := (b.lines.map byteLen).foldr max 0

/-- `Buffer::size` = (max_width, lines_num). -/
def Buffer.size (b : Buffer) : Size := ⟨b.max_width, b.lines_num⟩

/-- Rust `str::split('\n')` on a character list: split at every newline.
`List.splitOn` has exactly these semantics (empty input yields `[[]]`, a
trailing separator a final `[]`). -/
def splitNl (s : List Char) : List (List Char) := s.splitOn '\n'

/-- `trim_matches(|c| c == '\r' || c == '\n')`: strip CR/LF runs from both ends. -/
def trimCrNl (l : List Char) : List Char :=
  ((l.dropWhile fun c => c = '\r' || c = '\n').reverse.dropWhile
    fun c => c = '\r' || c = '\n').reverse

/-- `LINE_SEP` for the non-Windows build: `"\n"`. -/
def lineSep : List Char := ['\n']

/-- `Buffer::load` (buffer.rs 35-49) after the excluded `fs::read_to_string`:
clear, split the text on `'\n'` trimming CR/LF at both ends of each part,
relocate the caret to (chars of last line, last line index), ensure the current
line exists. -/
def Buffer.load (b : Buffer) (s : List Char) : Buffer :=
  let b := b.clear
  let lines := (splitNl s).map trimCrNl
  let lineCnt := lines.length
  let caret : Location :=
    if lineCnt = 0 then ⟨0, 0⟩
    else ⟨charsCount (lines.getD (lineCnt - 1) []), lineCnt - 1⟩
  Buffer.ensure_current_line { b with caret := caret, lines := lines }

/-- `Buffer::save` modulo the excluded file write: lines joined by `LINE_SEP`. -/
def Buffer.save (b : Buffer) : List Char := List.intercalate lineSep b.lines

/-- `Area` (editarea.rs 100-147): origin plus size. -/
structure Area where
  left_top : Location
  size : Size
deriving DecidableEq, Repr

/-- `Area::new`. -/
def Area.new (x y w h : Nat) : Area := ⟨⟨x, y⟩, ⟨w, h⟩⟩

/-- `Area::width`. -/
def Area.width (a : Area) : Nat := a.size.width

/-- `Area::height`. -/
def Area.height (a : Area) : Nat := a.size.height

/-- `VERTICAL_PADDING` (editarea.rs 15). -/
def VERTICAL_PADDING : Nat := 3

/-- `HORIZONTAL_PADDING` (editarea.rs 18). -/
def HORIZONTAL_PADDING : Nat := 5

/-- `EditArea` (editarea.rs 149-158). -/
structure EditArea where
  buffer : Buffer
  display_area : Area
  buffer_display_offset : Location
  welcome_buffer : Buffer
  need_printing : Bool
deriving DecidableEq, Repr

/-- Vertical branch of `EditArea::update_display_offset` (editarea.rs 293-316):
pad-aware adjustment of `offset.y` followed by the pin-last-line-to-bottom check.
`caret.y as isize - offset.y as isize` is modelled in `Int`; Rust's
`saturating_sub` is `Nat` subtraction; the two raw `usize` subtractions
(`lines_num - offset.y` and the final `-=`) cannot underflow when the caret row
is a real line, which every caller establishes via `check_caret`. -/
def vOffset (height linesNum caretY vp y : Nat) : Nat :=
  let yDisplay : Int := (caretY : Int) - (y : Int)
  let y1 :=
    if (height : Int) - (vp : Int) ≤ yDisplay then
      min (caretY + vp) linesNum - height
    else if yDisplay < (vp : Int) then
      if vp ≤ caretY then caretY - vp else 0
    else y
  if height < linesNum then
    y1 - (height - (linesNum - y1))
  else y1

/-- Horizontal branch of `EditArea::update_display_offset` (editarea.rs 317-330). -/
def hOffset (width caretX hp x : Nat) : Nat :=
  let xDisplay : Int := (caretX : Int) - (x : Int)
  if xDisplay < (hp : Int) then
    if caretX < hp then 0 else caretX - hp
  else if ((width - hp : Nat) : Int) < xDisplay then
    (caretX + hp) - width
  else x

/-- `EditArea::update_display_offset` (editarea.rs 290-332): reconcile the scroll
offset with the caret; returns the new state and whether the offset changed. -/
def EditArea.update_display_offset (a : EditArea) : EditArea × Bool :=
  let rawOffset := a.buffer_display_offset
  let caret := a.buffer.caret
  let vp := if 2 * VERTICAL_PADDING ≤ a.display_area.height then VERTICAL_PADDING else 0
  let newY := vOffset a.display_area.height a.buffer.lines_num caret.y vp a.buffer_display_offset.y
  let hp := if 2 * HORIZONTAL_PADDING ≤ a.display_area.width then HORIZONTAL_PADDING else 0
  let newX := hOffset a.display_area.width caret.x hp a.buffer_display_offset.x
  let newOffset : Location := ⟨newX, newY⟩
  ({ a with buffer_display_offset := newOffset }, decide (newOffset ≠ rawOffset))

/-- `EditArea::get_cursor` (editarea.rs 162-167): caret minus offset
(`saturating_sub`), clamped by `min` to the display width/height. -/
def EditArea.get_cursor (a : EditArea) : Location :=
  ⟨min (a.buffer.caret.x - a.buffer_display_offset.x) a.display_area.width,
   min (a.buffer.caret.y - a.buffer_display_offset.y) a.display_area.height⟩

/-- `EditArea::move_caret_to` (editarea.rs 481-490): validate, seek, reconcile the
offset (marking the repaint flag on change), return the screen cursor. -/
def EditArea.move_caret_to (a : EditArea) (caret : Location) :
    Except Error (EditArea × Location) :=
  match a.buffer.check_caret caret with
  | .error e => .error e
  | .ok _ =>
    let a := { a with buffer := a.buffer.seek_unchecked caret }
    let p := a.update_display_offset
    let a := if p.2 then { p.1 with need_printing := true } else p.1
    .ok (a, a.get_cursor)

/-- Result of one `BufferReader::next` / `prev` step: a character together with the
caret the reader moves to, end of content (with the caret the source leaves
behind), or a Rust panic (slicing at a non-boundary byte index, failed
`unwrap`). -/
inductive StepRes where
  | char (c : Char) (k : Location)
  | eof (k : Location)
  | panic
deriving DecidableEq, Repr

/-- `impl Iterator for BufferReader` `next` (buffer.rs 263-284): past the end of a
line the reader synthesizes `'\n'` unless the line was the last one; inside a
line it reads the character at byte index `caret.x` and advances by its UTF-8
width. -/
def readerNext (b : Buffer) (c : Location) : StepRes :=
  match b.lines.get? c.y with
  | some line =>
    if byteLen line ≤ c.x then
      if (b.lines.get? (c.y + 1)).isSome then .char '\n' ⟨0, c.y + 1⟩
      else .eof ⟨0, c.y + 1⟩
    else
      match dropBytes line c.x with
      | some (ch :: _) => .char ch ⟨c.x + ch.utf8Size, c.y⟩
      | _ => .panic
  | none => .eof c

/-- `BufferReader::prev` (buffer.rs 290-309). -/
def readerPrev (b : Buffer) (c : Location) : StepRes :=
  if c.x = 0 then
    if c.y = 0 then .eof c
    else
      match b.lines.get? (c.y - 1) with
      | some line => .char '\n' ⟨byteLen line, c.y - 1⟩
      | none => .panic
  else
    match b.lines.get? c.y with
    | some line =>
      match takeBytes line c.x with
      | some pre =>
        match pre.getLast? with
        | some ch => .char ch ⟨c.x - ch.utf8Size, c.y⟩
        | none => .panic
      | none => .panic
    | none => .panic

/-- Result of `BufferReader::peek`. -/
inductive PeekRes where
  | char (c : Char)
  | nothing
  | panic
deriving DecidableEq, Repr

/-- `BufferReader::peek` (buffer.rs 312-328).  Note the `caret.y == lines_num`
test is evaluated under `get(caret.y) = Some(line)`, hence never true: at the
end of the last line peek reports `'\n'`, not `None`. -/
def peekAt (b : Buffer) (c : Location) : PeekRes :=
  match b.lines.get? c.y with
  | some line =>
    if c.x < byteLen line then
      match dropBytes line c.x with
      | some (ch :: _) => .char ch
      | some [] => .nothing
      | none => .panic
    else if c.y = b.lines_num then .nothing
    else .char '\n'
  | none => .nothing

/-- Rust `char::is_whitespace`: the Unicode White_Space property. -/
def isWhitespaceRust (c : Char) : Bool :=
  (0x09 ≤ c.toNat && c.toNat ≤ 0x0D) || c.toNat == 0x20 || c.toNat == 0x85 ||
    c.toNat == 0xA0 || c.toNat == 0x1680 ||
    (0x2000 ≤ c.toNat && c.toNat ≤ 0x200A) ||
    c.toNat == 0x2028 || c.toNat == 0x2029 || c.toNat == 0x202F ||
    c.toNat == 0x205F || c.toNat == 0x3000

/-- Result of `skip_until` / `back_until`: the reader caret on success, `EndOfFile`
(the source restores the caret it started from), or a panic in the step. -/
inductive ScanRes where
  | ok (c : Location)
  | eof
  | panic
deriving DecidableEq, Repr

/-- A `.char` step of `readerNext` strictly shrinks the (remaining lines, remaining
bytes of the current line) measure. -/
theorem readerNext_measure {b : Buffer} {cur : Location} {ch : Char} {k : Location}
    (h : readerNext b cur = .char ch k) :
    b.lines.length - k.y < b.lines.length - cur.y ∨
      (k.y = cur.y ∧
        byteLen (b.lines.getD k.y []) - k.x < byteLen (b.lines.getD cur.y []) - cur.x) := by
  unfold readerNext at h
  cases hg : b.lines.get? cur.y with
  | none => rw [hg] at h; exact absurd h (by simp)
  | some line =>
    have hy : cur.y < b.lines.length := by
      by_contra hy
      rw [List.get?_eq_none.mpr (Nat.le_of_not_lt hy)] at hg
      exact absurd hg (by simp)
    rw [hg] at h
    simp only at h
    by_cases hx : byteLen line ≤ cur.x
    · rw [if_pos hx] at h
      by_cases hn : (b.lines.get? (cur.y + 1)).isSome
      · rw [if_pos hn] at h
        cases h
        left
        dsimp only
        omega
      · rw [if_neg hn] at h
        exact absurd h (by simp)
    · rw [if_neg hx] at h
      cases hd : dropBytes line cur.x with
      | none => rw [hd] at h; exact absurd h (by simp)
      | some suf =>
        cases suf with
        | nil => rw [hd] at h; exact absurd h (by simp)
        | cons c0 rest =>
          rw [hd] at h
          simp only at h
          cases h
          refine Or.inr ⟨rfl, ?_⟩
          have hgd : b.lines.getD cur.y [] = line := by
            rw [List.getD_eq_getElem?_getD, ← List.get?_eq_getElem?, hg]
            rfl
          dsimp only
          rw [hgd]
          have hpos : 0 < ch.utf8Size := Char.utf8Size_pos ch
          omega

/-- A `.char` step of `readerPrev` strictly shrinks the caret lexicographically. -/
theorem readerPrev_measure {b : Buffer} {cur : Location} {ch : Char} {k : Location}
    (h : readerPrev b cur = .char ch k) :
    k.y < cur.y ∨ (k.y = cur.y ∧ k.x < cur.x) := by
  unfold readerPrev at h
  by_cases hx : cur.x = 0
  · rw [if_pos hx] at h
    by_cases hy : cur.y = 0
    · rw [if_pos hy] at h; exact absurd h (by simp)
    · rw [if_neg hy] at h
      cases hg : b.lines.get? (cur.y - 1) with
      | none => rw [hg] at h; exact absurd h (by simp)
      | some line =>
        rw [hg] at h
        simp only at h
        cases h
        refine Or.inl ?_
        dsimp only
        omega
  · rw [if_neg hx] at h
    cases hg : b.lines.get? cur.y with
    | none => rw [hg] at h; exact absurd h (by simp)
    | some line =>
      rw [hg] at h
      simp only at h
      cases ht : takeBytes line cur.x with
      | none => rw [ht] at h; exact absurd h (by simp)
      | some pre =>
        rw [ht] at h
        simp only at h
        cases hl : pre.getLast? with
        | none => rw [hl] at h; exact absurd h (by simp)
        | some c0 =>
          rw [hl] at h
          simp only at h
          cases h
          refine Or.inr ⟨rfl, ?_⟩
          dsimp only
          have hpos : 0 < ch.utf8Size := Char.utf8Size_pos ch
          omega

/-- `BufferReader::skip_until` (buffer.rs 197-213): step forward with `next` until
`f` holds; the caret is left pointing at the hit character. -/
def skip_until (b : Buffer) (f : Char → Bool) (cur : Location) : ScanRes :=
  match h : readerNext b cur with
  | .char ch k => if f ch then .ok cur else skip_until b f k
  | .eof _ => .eof
  | .panic => .panic
termination_by (b.lines.length - cur.y, byteLen (b.lines.getD cur.y []) - cur.x)
decreasing_by
  rcases readerNext_measure h with h1 | ⟨h2, h3⟩
  · exact Prod.Lex.left _ _ h1
  · rw [h2]
    exact Prod.Lex.right _ (by rw [h2] at h3; exact h3)

/-- `BufferReader::back_until` (buffer.rs 233-249): step backward with `prev` until
`f` holds; the caret is left just after the hit character. -/
def back_until (b : Buffer) (f : Char → Bool) (cur : Location) : ScanRes :=
  match h : readerPrev b cur with
  | .char ch k => if f ch then .ok cur else back_until b f k
  | .eof _ => .eof
  | .panic => .panic
termination_by (cur.y, cur.x)
decreasing_by
  rcases readerPrev_measure h with h1 | ⟨h2, h3⟩
  · exact Prod.Lex.left _ _ h1
  · rw [h2]
    exact Prod.Lex.right _ h3

/-- One unfolding of `skip_until` on a `.char` step. -/
theorem skip_until_char {b : Buffer} {f : Char → Bool} {cur : Location} {ch : Char}
    {k : Location} (h : readerNext b cur = .char ch k) :
    skip_until b f cur = if f ch then .ok cur else skip_until b f k := by
  conv_lhs => rw [skip_until]
  split
  · rename_i ch' k' h'
    rw [h'] at h
    injection h with h1 h2
    subst h1
    subst h2
    rfl
  · rename_i k' h'
    rw [h'] at h
    exact absurd h (by simp)
  · rename_i h'
    rw [h'] at h
    exact absurd h (by simp)

/-- One unfolding of `skip_until` at the end of content. -/
theorem skip_until_eof {b : Buffer} {f : Char → Bool} {cur k : Location}
    (h : readerNext b cur = .eof k) : skip_until b f cur = .eof := by
  conv_lhs => rw [skip_until]
  split
  · rename_i ch' k' h'
    rw [h'] at h
    exact absurd h (by simp)
  · rfl
  · rename_i h'
    rw [h'] at h
    exact absurd h (by simp)

/-- One unfolding of `skip_until` on a panicking step. -/
theorem skip_until_panic {b : Buffer} {f : Char → Bool} {cur : Location}
    (h : readerNext b cur = .panic) : skip_until b f cur = .panic := by
  conv_lhs => rw [skip_until]
  split
  · rename_i ch' k' h'
    rw [h'] at h
    exact absurd h (by simp)
  · rename_i k' h'
    rw [h'] at h
    exact absurd h (by simp)
  · rfl

/-- One unfolding of `back_until` on a `.char` step. -/
theorem back_until_char {b : Buffer} {f : Char → Bool} {cur : Location} {ch : Char}
    {k : Location} (h : readerPrev b cur = .char ch k) :
    back_until b f cur = if f ch then .ok cur else back_until b f k := by
  conv_lhs => rw [back_until]
  split
  · rename_i ch' k' h'
    rw [h'] at h
    injection h with h1 h2
    subst h1
    subst h2
    rfl
  · rename_i k' h'
    rw [h'] at h
    exact absurd h (by simp)
  · rename_i h'
    rw [h'] at h
    exact absurd h (by simp)

/-- One unfolding of `back_until` at the start of content. -/
theorem back_until_eof {b : Buffer} {f : Char → Bool} {cur k : Location}
    (h : readerPrev b cur = .eof k) : back_until b f cur = .eof := by
  conv_lhs => rw [back_until]
  split
  · rename_i ch' k' h'
    rw [h'] at h
    exact absurd h (by simp)
  · rfl
  · rename_i h'
    rw [h'] at h
    exact absurd h (by simp)

/-- One unfolding of `back_until` on a panicking step. -/
theorem back_until_panic {b : Buffer} {f : Char → Bool} {cur : Location}
    (h : readerPrev b cur = .panic) : back_until b f cur = .panic := by
  conv_lhs => rw [back_until]
  split
  · rename_i ch' k' h'
    rw [h'] at h
    exact absurd h (by simp)
  · rename_i k' h'
    rw [h'] at h
    exact absurd h (by simp)
  · rfl

/-- Fuelled, structurally recursive twin of `skip_until`, used only to evaluate the
scans on concrete buffers through `decide`. -/
def skipUntilFuel : Nat → Buffer → (Char → Bool) → Location → Option ScanRes
  | 0, _, _, _ => none
  | n + 1, b, f, cur =>
    match readerNext b cur with
    | .char ch k => if f ch then some (.ok cur) else skipUntilFuel n b f k
    | .eof _ => some .eof
    | .panic => some .panic

/-- Fuelled, structurally recursive twin of `back_until`. -/
def backUntilFuel : Nat → Buffer → (Char → Bool) → Location → Option ScanRes
  | 0, _, _, _ => none
  | n + 1, b, f, cur =>
    match readerPrev b cur with
    | .char ch k => if f ch then some (.ok cur) else backUntilFuel n b f k
    | .eof _ => some .eof
    | .panic => some .panic

/-- A fuelled run that completes computes `skip_until`. -/
theorem skip_until_of_fuel {n : Nat} {b : Buffer} {f : Char → Bool} {cur : Location}
    {r : ScanRes} (h : skipUntilFuel n b f cur = some r) : skip_until b f cur = r := by
  induction n generalizing cur with
  | zero => exact absurd h (by simp [skipUntilFuel])
  | succ n ih =>
    rw [skipUntilFuel] at h
    cases hr : readerNext b cur with
    | char ch k =>
      rw [hr] at h
      simp only at h
      by_cases hf : f ch
      · rw [if_pos hf] at h
        rw [skip_until_char hr, if_pos hf]
        exact Option.some_injective _ h
      · rw [if_neg hf] at h
        rw [skip_until_char hr, if_neg hf]
        exact ih h
    | eof k =>
      rw [hr] at h
      simp only at h
      rw [skip_until_eof hr]
      exact Option.some_injective _ h
    | panic =>
      rw [hr] at h
      simp only at h
      rw [skip_until_panic hr]
      exact Option.some_injective _ h

/-- A fuelled run that completes computes `back_until`. -/
theorem back_until_of_fuel {n : Nat} {b : Buffer} {f : Char → Bool} {cur : Location}
    {r : ScanRes} (h : backUntilFuel n b f cur = some r) : back_until b f cur = r := by
  induction n generalizing cur with
  | zero => exact absurd h (by simp [backUntilFuel])
  | succ n ih =>
    rw [backUntilFuel] at h
    cases hr : readerPrev b cur with
    | char ch k =>
      rw [hr] at h
      simp only at h
      by_cases hf : f ch
      · rw [if_pos hf] at h
        rw [back_until_char hr, if_pos hf]
        exact Option.some_injective _ h
      · rw [if_neg hf] at h
        rw [back_until_char hr, if_neg hf]
        exact ih h
    | eof k =>
      rw [hr] at h
      simp only at h
      rw [back_until_eof hr]
      exact Option.some_injective _ h
    | panic =>
      rw [hr] at h
      simp only at h
      rw [back_until_panic hr]
      exact Option.some_injective _ h

/-- `BufferReader::skip_until_blank`. -/
def skip_until_blank (b : Buffer) (cur : Location) : ScanRes :=
  skip_until b isWhitespaceRust cur

/-- `BufferReader::skip_until_not_blank`. -/
def skip_until_not_blank (b : Buffer) (cur : Location) : ScanRes :=
  skip_until b (fun c => ! isWhitespaceRust c) cur

/-- `BufferReader::back_until_blank`. -/
def back_until_blank (b : Buffer) (cur : Location) : ScanRes :=
  back_until b isWhitespaceRust cur

/-- `BufferReader::back_until_not_blank`. -/
def back_until_not_blank (b : Buffer) (cur : Location) : ScanRes :=
  back_until b (fun c => ! isWhitespaceRust c) cur

/-- `Buffer::get_reader` (buffer.rs 171-174): validate the buffer's caret; the
reader's caret starts equal to it. -/
def Buffer.get_reader (b : Buffer) : Except Error Location :=
  match b.check_caret b.caret with
  | .error e => .error e
  | .ok _ => .ok b.caret

/-- `EditArea::move_caret_to_global_end` (editarea.rs 412-422); the `unwrap` on
`move_caret_to` is a potential panic, modelled by `none`. -/
def EditArea.move_caret_to_global_end (a : EditArea) : Option (EditArea × Location) :=
  if a.buffer.lines_num ≠ 0 then
    (a.move_caret_to ⟨byteLen (a.buffer.lines.getD (a.buffer.lines_num - 1) []),
      a.buffer.lines_num - 1⟩).toOption
  else some (a, ⟨0, 0⟩)

/-- `EditArea::move_caret_to_global_start` (editarea.rs 424-426). -/
def EditArea.move_caret_to_global_start (a : EditArea) : Option (EditArea × Location) :=
  (a.move_caret_to ⟨0, 0⟩).toOption

/-- The scan performed by `move_caret_to_next_word`: first blank, then first
non-blank after it (short-circuit on failure). -/
def scanNextWord (b : Buffer) (c : Location) : ScanRes :=
  match skip_until_blank b c with
  | .ok c1 => skip_until_not_blank b c1
  | r => r

/-- `EditArea::move_caret_to_next_word` (editarea.rs 428-436): on a successful scan
move the caret to the reader's caret, otherwise fall back to `GlobalEnd`. -/
def EditArea.move_caret_to_next_word (a : EditArea) : Option (EditArea × Location) :=
  match a.buffer.get_reader with
  | .error _ => none
  | .ok c0 =>
    match scanNextWord a.buffer c0 with
    | .ok c => (a.move_caret_to c).toOption
    | .eof => a.move_caret_to_global_end
    | .panic => none

/-- The scan performed by `move_caret_to_prev_word`: under a non-blank character,
back to blank, back to non-blank, back to blank; otherwise back to non-blank
then back to blank (short-circuit on failure). -/
def scanPrevWord (b : Buffer) (c : Location) : ScanRes :=
  match peekAt b c with
  | .panic => .panic
  | .char ch =>
    if ! isWhitespaceRust ch then
      match back_until_blank b c with
      | .ok c1 =>
        match back_until_not_blank b c1 with
        | .ok c2 => back_until_blank b c2
        | r => r
      | r => r
    else
      match back_until_not_blank b c with
      | .ok c1 => back_until_blank b c1
      | r => r
  | .nothing =>
    match back_until_not_blank b c with
    | .ok c1 => back_until_blank b c1
    | r => r

/-- `EditArea::move_caret_to_prev_word` (editarea.rs 438-456): on a successful scan
move there, otherwise fall back to `GlobalStart`. -/
def EditArea.move_caret_to_prev_word (a : EditArea) : Option (EditArea × Location) :=
  match a.buffer.get_reader with
  | .error _ => none
  | .ok c0 =>
    match scanPrevWord a.buffer c0 with
    | .ok c => (a.move_caret_to c).toOption
    | .eof => a.move_caret_to_global_start
    | .panic => none

/-- Rust `char::is_control`: the Cc general category (U+0000..U+001F and
U+007F..U+009F). -/
def isControlRust (c : Char) : Bool :=
  c.toNat < 0x20 || (0x7F ≤ c.toNat && c.toNat ≤ 0x9F)

/-- `String::insert(idx, ch)`: `none` where Rust panics (`idx` not a char boundary
or past the end). -/
def insertByte (l : List Char) (i : Nat) (c : Char) : Option (List Char) :=
  match takeBytes l i, dropBytes l i with
  | some pre, some suf => some (pre ++ c :: suf)
  | _, _ => none

/-- `Vec::insert` (used by `write_str` only at indices ≤ len). -/
def listInsertIdx (l : List (List Char)) (n : Nat) (a : List Char) : List (List Char) :=
  l.take n ++ a :: l.drop n

/-- Outcome of `fmt::Write::write_str`: success, `fmt::Error` (the caret was
invalid on entry), or a Rust panic at a non-boundary byte index. -/
inductive WriteRes where
  | ok (b : Buffer)
  | fmtError
  | panic
deriving DecidableEq, Repr

/-- Per-character loop of `write_str` (buffer.rs 334-347): a printable character is
inserted at byte index `caret.x` and the caret advances by **one** (a character
step, regardless of the inserted byte width); `'\n'` splits the current line at
byte index `caret.x`; remaining control characters are ignored. -/
def writeChars (b : Buffer) : List Char → WriteRes
  | [] => .ok b
  | c :: rest =>
    if ! isControlRust c && c != '\r' then
      match b.lines.get? b.caret.y with
      | none => .panic
      | some line =>
        match insertByte line b.caret.x c with
        | none => .panic
        | some line' =>
          writeChars { b with lines := b.lines.set b.caret.y line',
                              caret := ⟨b.caret.x + 1, b.caret.y⟩ } rest
    else if c = '\n' then
      match b.lines.get? b.caret.y with
      | none => .panic
      | some line =>
        match dropBytes line b.caret.x, takeBytes line b.caret.x with
        | some toMove, some pre =>
          writeChars { b with
            lines := listInsertIdx (b.lines.set b.caret.y pre) (b.caret.y + 1) toMove,
            caret := ⟨0, b.caret.y + 1⟩ } rest
        | _, _ => .panic
    else writeChars b rest

/-- `impl fmt::Write for Buffer` `write_str` (buffer.rs 331-350). -/
def Buffer.write_str (b : Buffer) (s : List Char) : WriteRes :=
  match b.check_caret b.caret with
  | .error _ => .fmtError
  | .ok _ => writeChars b s

/-- The size gate of `EditArea::print_welcome_to` (editarea.rs 237-244): fail with
`BufferSizeExceeds` unless the display area's size is strictly greater
(partial-order `>`) than the welcome buffer's size.  The terminal drawing of the
success path is the excluded io collaborator; it reports only io errors. -/
def EditArea.print_welcome_to (a : EditArea) : Except Error Unit :=
  if ¬ Size.partCmp a.display_area.size a.welcome_buffer.size = some .gt then
    .error (.bufferSizeExceeds a.welcome_buffer.size a.display_area.size)
  else .ok ()

/-! ## Helper lemmas -/

/-- `ensure_current_line` does nothing when the caret row already exists. -/
theorem ensure_current_line_of_lt {b : Buffer} (h : b.caret.y < b.lines.length) :
    b.ensure_current_line = b := by
  rw [Buffer.ensure_current_line]
  simp [h]

/-- After `ensure_current_line` the caret row exists. -/
theorem caret_lt_ensure_current_line (b : Buffer) :
    b.caret.y < b.ensure_current_line.lines.length := by
  by_cases h : b.caret.y < b.lines.length
  · rw [ensure_current_line_of_lt h]
    exact h
  · rw [Buffer.ensure_current_line, if_neg h]
    exact caret_lt_ensure_current_line { b with lines := b.lines ++ [[]] }
termination_by b.caret.y + 1 - b.lines.length
decreasing_by
  simp only [List.length_append, List.length_cons, List.length_nil]
  omega

/-- `Buffer::new` concretely: one empty line, caret (0,0). -/
theorem new_eq_one_empty_line : Buffer.new = ⟨⟨0, 0⟩, [[]]⟩ := by
  rw [Buffer.new, Buffer.ensure_current_line]
  norm_num
  rw [Buffer.ensure_current_line]
  norm_num

/-! ## Claims -/

/-- C1 (code-bug evidence): the horizontal bound of `check_caret` is the line's
byte length, not its character count.  On the single line "é" (1 character,
2 bytes) the position (2,0) — which exceeds the character count — is accepted
instead of being rejected with `CaretOutOfLen`. -/
theorem c1_check_caret_counts_bytes :
    Buffer.check_caret ⟨⟨0, 0⟩, [['é']]⟩ ⟨2, 0⟩ = .ok () ∧
    charsCount ['é'] = 1 ∧ byteLen ['é'] = 2 := by decide

/-- C2 (code-bug evidence): writing "héllo" into a fresh buffer panics instead of
inserting five characters: after 'h' and 'é' the caret byte index is 2, inside
é's two-byte encoding, so inserting 'l' is a non-boundary `String::insert`. -/
theorem c2_write_hello_panics :
    Buffer.write_str Buffer.new "héllo".toList = .panic ∧
    charsCount "héllo".toList = 5 := by
  rw [new_eq_one_empty_line]
  constructor <;> decide

/-- Every element of a part produced by `splitOnP p` fails `p` and comes from the
input list. -/
theorem splitOnP_parts {α : Type} (p : α → Bool) :
    ∀ (xs : List α), ∀ l ∈ xs.splitOnP p, ∀ a ∈ l, ¬ p a ∧ a ∈ xs := by
  intro xs
  induction xs with
  | nil =>
    intro l hl a ha
    simp only [List.splitOnP_nil, List.mem_singleton] at hl
    subst hl
    exact absurd ha (by simp)
  | cons hd tl ih =>
    intro l hl a ha
    rw [List.splitOnP_cons] at hl
    by_cases hp : p hd
    · rw [if_pos hp] at hl
      rcases List.mem_cons.mp hl with rfl | hl'
      · exact absurd ha (by simp)
      · obtain ⟨h1, h2⟩ := ih l hl' a ha
        exact ⟨h1, List.mem_cons_of_mem _ h2⟩
    · rw [if_neg hp] at hl
      cases hsp : tl.splitOnP p with
      | nil => exact absurd hsp (List.splitOnP_ne_nil p tl)
      | cons h' t' =>
        rw [hsp, List.modifyHead_cons] at hl
        rcases List.mem_cons.mp hl with rfl | hl'
        · rcases List.mem_cons.mp ha with rfl | ha'
          · exact ⟨hp, List.mem_cons_self _ _⟩
          · obtain ⟨h1, h2⟩ := ih h' (by rw [hsp]; exact List.mem_cons_self _ _) a ha'
            exact ⟨h1, List.mem_cons_of_mem _ h2⟩
        · obtain ⟨h1, h2⟩ := ih l (by rw [hsp]; exact List.mem_cons_of_mem _ hl') a ha
          exact ⟨h1, List.mem_cons_of_mem _ h2⟩

/-- `dropWhile` is the identity on a list without a `p`-satisfying element. -/
theorem dropWhile_eq_self_of_forall {p : Char → Bool} {l : List Char}
    (h : ∀ c ∈ l, ¬ p c) : l.dropWhile p = l := by
  cases l with
  | nil => rfl
  | cons c cs =>
    rw [List.dropWhile_cons, if_neg (h c (List.mem_cons_self _ _))]

/-- `trim_matches` of CR/LF is the identity on a line containing neither. -/
theorem trimCrNl_eq_self {l : List Char} (h : ∀ c ∈ l, ¬ (c = '\r' || c = '\n')) :
    trimCrNl l = l := by
  unfold trimCrNl
  rw [dropWhile_eq_self_of_forall h,
    dropWhile_eq_self_of_forall fun c hc => h c (List.mem_reverse.mp hc),
    List.reverse_reverse]

/-- C3: for CR-free text (text normalized to the modelled platform's `"\n"`
separator), `save` after `load` reproduces the text exactly; loading empty text
yields one empty line with caret (0,0), whose `save` is empty. -/
theorem c3_save_load_round_trip :
    (∀ (b : Buffer) (s : List Char), '\r' ∉ s → (b.load s).save = s) ∧
    (∀ b : Buffer, b.load [] = ⟨⟨0, 0⟩, [[]]⟩ ∧ (b.load []).save = []) := by
  have load_empty : ∀ b : Buffer, b.load [] = ⟨⟨0, 0⟩, [[]]⟩ := by
    intro b
    have h1 : b.load [] = Buffer.ensure_current_line ⟨⟨0, 0⟩, [[]]⟩ := rfl
    rw [h1, ensure_current_line_of_lt (by decide)]
  constructor
  · intro b s hr
    have hne : s.splitOnP (· == '\n') ≠ [] := List.splitOnP_ne_nil _ s
    have hmap : (splitNl s).map trimCrNl = splitNl s := by
      have htrim : ∀ l ∈ splitNl s, trimCrNl l = l := by
        intro l hl
        apply trimCrNl_eq_self
        intro c hc
        obtain ⟨hnl, hmem⟩ :=
          splitOnP_parts (· == '\n') s l (by simpa [splitNl, List.splitOn] using hl) c hc
        simp only [beq_iff_eq] at hnl
        have hcr : c ≠ '\r' := fun hc' => hr (hc' ▸ hmem)
        simp [hnl, hcr]
      rw [List.map_congr_left htrim, List.map_id']
    have hlen : 0 < (splitNl s).length := by
      rw [List.length_pos]
      simpa [splitNl, List.splitOn] using hne
    simp only [Buffer.load, hmap]
    rw [if_neg (by omega)]
    rw [ensure_current_line_of_lt (by simpa using by omega)]
    simp only [Buffer.save, lineSep, splitNl]
    exact List.intercalate_splitOn s '\n'
  · intro b
    refine ⟨load_empty b, ?_⟩
    rw [load_empty b]
    rfl

/-- C3 witness: the round trip at the concrete CR-free text "ab\nc". -/
theorem c3_save_load_round_trip_witness :
    '\r' ∉ "ab\nc".toList ∧
      (Buffer.new.load "ab\nc".toList).save = "ab\nc".toList :=
  ⟨by decide, c3_save_load_round_trip.1 Buffer.new "ab\nc".toList (by decide)⟩

/-- The single-line "foo bar  baz" buffer of the word-navigation example, with a
parametric caret. -/
def fbBuf (c : Location) : Buffer := ⟨c, ["foo bar  baz".toList]⟩

/-- The word-navigation fixture: "foo bar  baz" in an 80×24 display at origin. -/
def fooBarArea (c : Location) : EditArea :=
  ⟨fbBuf c, Area.new 0 0 80 24, ⟨0, 0⟩, ⟨⟨0, 0⟩, [[]]⟩, false⟩

/-- NextWord from column 0 of "foo bar  baz" lands on column 4 (the b of bar). -/
theorem fb_next_from_0 :
    (fooBarArea ⟨0, 0⟩).move_caret_to_next_word = some (fooBarArea ⟨4, 0⟩, ⟨4, 0⟩) := by
  have h1 : skip_until_blank (fbBuf ⟨0, 0⟩) ⟨0, 0⟩ = .ok ⟨3, 0⟩ :=
    skip_until_of_fuel (by decide :
      skipUntilFuel 20 (fbBuf ⟨0, 0⟩) isWhitespaceRust ⟨0, 0⟩ = some (ScanRes.ok ⟨3, 0⟩))
  have h2 : skip_until_not_blank (fbBuf ⟨0, 0⟩) ⟨3, 0⟩ = .ok ⟨4, 0⟩ :=
    skip_until_of_fuel (by decide :
      skipUntilFuel 20 (fbBuf ⟨0, 0⟩) (fun c => ! isWhitespaceRust c) ⟨3, 0⟩ =
        some (ScanRes.ok ⟨4, 0⟩))
  have hs : scanNextWord (fbBuf ⟨0, 0⟩) ⟨0, 0⟩ = .ok ⟨4, 0⟩ := by
    unfold scanNextWord
    rw [h1]
    exact h2
  have hr : (fbBuf ⟨0, 0⟩).get_reader = .ok ⟨0, 0⟩ := by decide
  simp only [EditArea.move_caret_to_next_word, fooBarArea, hr, hs]
  decide

/-- NextWord from column 4 of "foo bar  baz" lands on column 9 (the b of baz). -/
theorem fb_next_from_4 :
    (fooBarArea ⟨4, 0⟩).move_caret_to_next_word = some (fooBarArea ⟨9, 0⟩, ⟨9, 0⟩) := by
  have h1 : skip_until_blank (fbBuf ⟨4, 0⟩) ⟨4, 0⟩ = .ok ⟨7, 0⟩ :=
    skip_until_of_fuel (by decide :
      skipUntilFuel 20 (fbBuf ⟨4, 0⟩) isWhitespaceRust ⟨4, 0⟩ = some (ScanRes.ok ⟨7, 0⟩))
  have h2 : skip_until_not_blank (fbBuf ⟨4, 0⟩) ⟨7, 0⟩ = .ok ⟨9, 0⟩ :=
    skip_until_of_fuel (by decide :
      skipUntilFuel 20 (fbBuf ⟨4, 0⟩) (fun c => ! isWhitespaceRust c) ⟨7, 0⟩ =
        some (ScanRes.ok ⟨9, 0⟩))
  have hs : scanNextWord (fbBuf ⟨4, 0⟩) ⟨4, 0⟩ = .ok ⟨9, 0⟩ := by
    unfold scanNextWord
    rw [h1]
    exact h2
  have hr : (fbBuf ⟨4, 0⟩).get_reader = .ok ⟨4, 0⟩ := by decide
  simp only [EditArea.move_caret_to_next_word, fooBarArea, hr, hs]
  decide

/-- NextWord from column 9 of "foo bar  baz" finds no further blank and falls back
to GlobalEnd (column 12, the end of the line). -/
theorem fb_next_from_9 :
    (fooBarArea ⟨9, 0⟩).move_caret_to_next_word = some (fooBarArea ⟨12, 0⟩, ⟨12, 0⟩) := by
  have h1 : skip_until_blank (fbBuf ⟨9, 0⟩) ⟨9, 0⟩ = .eof :=
    skip_until_of_fuel (by decide :
      skipUntilFuel 20 (fbBuf ⟨9, 0⟩) isWhitespaceRust ⟨9, 0⟩ = some ScanRes.eof)
  have hs : scanNextWord (fbBuf ⟨9, 0⟩) ⟨9, 0⟩ = .eof := by
    unfold scanNextWord
    rw [h1]
  have hr : (fbBuf ⟨9, 0⟩).get_reader = .ok ⟨9, 0⟩ := by decide
  simp only [EditArea.move_caret_to_next_word, fooBarArea, hr, hs]
  decide

/-- PrevWord from column 9 of "foo bar  baz" (a non-blank under the caret) returns
to column 4. -/
theorem fb_prev_from_9 :
    (fooBarArea ⟨9, 0⟩).move_caret_to_prev_word = some (fooBarArea ⟨4, 0⟩, ⟨4, 0⟩) := by
  have hp : peekAt (fbBuf ⟨9, 0⟩) ⟨9, 0⟩ = .char 'b' := by decide
  have hw : isWhitespaceRust 'b' = false := by decide
  have b1 : back_until_blank (fbBuf ⟨9, 0⟩) ⟨9, 0⟩ = .ok ⟨9, 0⟩ :=
    back_until_of_fuel (by decide :
      backUntilFuel 20 (fbBuf ⟨9, 0⟩) isWhitespaceRust ⟨9, 0⟩ = some (ScanRes.ok ⟨9, 0⟩))
  have b2 : back_until_not_blank (fbBuf ⟨9, 0⟩) ⟨9, 0⟩ = .ok ⟨7, 0⟩ :=
    back_until_of_fuel (by decide :
      backUntilFuel 20 (fbBuf ⟨9, 0⟩) (fun c => ! isWhitespaceRust c) ⟨9, 0⟩ =
        some (ScanRes.ok ⟨7, 0⟩))
  have b3 : back_until_blank (fbBuf ⟨9, 0⟩) ⟨7, 0⟩ = .ok ⟨4, 0⟩ :=
    back_until_of_fuel (by decide :
      backUntilFuel 20 (fbBuf ⟨9, 0⟩) isWhitespaceRust ⟨7, 0⟩ = some (ScanRes.ok ⟨4, 0⟩))
  have hs : scanPrevWord (fbBuf ⟨9, 0⟩) ⟨9, 0⟩ = .ok ⟨4, 0⟩ := by
    simp [scanPrevWord, hp, hw, b1, b2, b3]
  have hr : (fbBuf ⟨9, 0⟩).get_reader = .ok ⟨9, 0⟩ := by decide
  simp only [EditArea.move_caret_to_prev_word, fooBarArea, hr, hs]
  decide

/-- PrevWord from column 4 of "foo bar  baz" scans past the start of the text and
falls back to GlobalStart (column 0). -/
theorem fb_prev_from_4 :
    (fooBarArea ⟨4, 0⟩).move_caret_to_prev_word = some (fooBarArea ⟨0, 0⟩, ⟨0, 0⟩) := by
  have hp : peekAt (fbBuf ⟨4, 0⟩) ⟨4, 0⟩ = .char 'b' := by decide
  have hw : isWhitespaceRust 'b' = false := by decide
  have b1 : back_until_blank (fbBuf ⟨4, 0⟩) ⟨4, 0⟩ = .ok ⟨4, 0⟩ :=
    back_until_of_fuel (by decide :
      backUntilFuel 20 (fbBuf ⟨4, 0⟩) isWhitespaceRust ⟨4, 0⟩ = some (ScanRes.ok ⟨4, 0⟩))
  have b2 : back_until_not_blank (fbBuf ⟨4, 0⟩) ⟨4, 0⟩ = .ok ⟨3, 0⟩ :=
    back_until_of_fuel (by decide :
      backUntilFuel 20 (fbBuf ⟨4, 0⟩) (fun c => ! isWhitespaceRust c) ⟨4, 0⟩ =
        some (ScanRes.ok ⟨3, 0⟩))
  have b3 : back_until_blank (fbBuf ⟨4, 0⟩) ⟨3, 0⟩ = .eof :=
    back_until_of_fuel (by decide :
      backUntilFuel 20 (fbBuf ⟨4, 0⟩) isWhitespaceRust ⟨3, 0⟩ = some ScanRes.eof)
  have hs : scanPrevWord (fbBuf ⟨4, 0⟩) ⟨4, 0⟩ = .eof := by
    simp [scanPrevWord, hp, hw, b1, b2, b3]
  have hr : (fbBuf ⟨4, 0⟩).get_reader = .ok ⟨4, 0⟩ := by decide
  simp only [EditArea.move_caret_to_prev_word, fooBarArea, hr, hs]
  decide

/-- C4: NextWord is the `skip_until_blank` then `skip_until_not_blank` scan routed
through `move_caret_to` with a GlobalEnd fallback on EndOfFile; PrevWord is the
corresponding backward scan (three legs under a non-blank character, two legs
otherwise) with a GlobalStart fallback.  On "foo bar  baz" with caret at column
0: NextWord reaches columns 4 then 9 (then falls back to GlobalEnd = 12);
PrevWord from column 9 returns to column 4 and then, via the fallback, to 0. -/
theorem c4_word_navigation :
    (∀ (a : EditArea) (c0 : Location), a.buffer.get_reader = .ok c0 →
      (∀ c : Location, scanNextWord a.buffer c0 = .ok c →
        a.move_caret_to_next_word = (a.move_caret_to c).toOption) ∧
      (scanNextWord a.buffer c0 = .eof →
        a.move_caret_to_next_word = a.move_caret_to_global_end) ∧
      (∀ c : Location, scanPrevWord a.buffer c0 = .ok c →
        a.move_caret_to_prev_word = (a.move_caret_to c).toOption) ∧
      (scanPrevWord a.buffer c0 = .eof →
        a.move_caret_to_prev_word = a.move_caret_to_global_start)) ∧
    (fooBarArea ⟨0, 0⟩).move_caret_to_next_word = some (fooBarArea ⟨4, 0⟩, ⟨4, 0⟩) ∧
    (fooBarArea ⟨4, 0⟩).move_caret_to_next_word = some (fooBarArea ⟨9, 0⟩, ⟨9, 0⟩) ∧
    (fooBarArea ⟨9, 0⟩).move_caret_to_prev_word = some (fooBarArea ⟨4, 0⟩, ⟨4, 0⟩) ∧
    (fooBarArea ⟨4, 0⟩).move_caret_to_prev_word = some (fooBarArea ⟨0, 0⟩, ⟨0, 0⟩) ∧
    (fooBarArea ⟨9, 0⟩).move_caret_to_next_word = some (fooBarArea ⟨12, 0⟩, ⟨12, 0⟩) := by
  refine ⟨?_, fb_next_from_0, fb_next_from_4, fb_prev_from_9, fb_prev_from_4, fb_next_from_9⟩
  intro a c0 hr
  refine ⟨?_, ?_, ?_, ?_⟩
  · intro c hs
    simp only [EditArea.move_caret_to_next_word, hr, hs]
  · intro hs
    simp only [EditArea.move_caret_to_next_word, hr, hs]
  · intro c hs
    simp only [EditArea.move_caret_to_prev_word, hr, hs]
  · intro hs
    simp only [EditArea.move_caret_to_prev_word, hr, hs]

/-- C4 witness: the general NextWord characterization instantiated on the concrete
"foo bar  baz" fixture at column 0. -/
theorem c4_word_navigation_witness :
    (fooBarArea ⟨0, 0⟩).buffer.get_reader = .ok ⟨0, 0⟩ ∧
    (fooBarArea ⟨0, 0⟩).move_caret_to_next_word =
      ((fooBarArea ⟨0, 0⟩).move_caret_to ⟨4, 0⟩).toOption :=
  ⟨by decide,
    ((c4_word_navigation.1 (fooBarArea ⟨0, 0⟩) ⟨0, 0⟩ (by decide)).1 ⟨4, 0⟩
      (by
        have h1 : skip_until_blank (fbBuf ⟨0, 0⟩) ⟨0, 0⟩ = .ok ⟨3, 0⟩ :=
          skip_until_of_fuel (by decide :
            skipUntilFuel 20 (fbBuf ⟨0, 0⟩) isWhitespaceRust ⟨0, 0⟩ =
              some (ScanRes.ok ⟨3, 0⟩))
        have h2 : skip_until_not_blank (fbBuf ⟨0, 0⟩) ⟨3, 0⟩ = .ok ⟨4, 0⟩ :=
          skip_until_of_fuel (by decide :
            skipUntilFuel 20 (fbBuf ⟨0, 0⟩) (fun c => ! isWhitespaceRust c) ⟨3, 0⟩ =
              some (ScanRes.ok ⟨4, 0⟩))
        show scanNextWord (fbBuf ⟨0, 0⟩) ⟨0, 0⟩ = .ok ⟨4, 0⟩
        unfold scanNextWord
        rw [h1]
        exact h2))⟩

/-- C5: with a 10-row display (vertical padding 3) and a 20-line buffer, moving the
caret to line 19 pins the last line to the bottom row (offset.y = 10) and then
moving the caret to line 0 resets offset.y to 0. -/
theorem c5_vertical_padding_pins :
    ((EditArea.move_caret_to
        ⟨⟨⟨0, 0⟩, List.replicate 20 []⟩, Area.new 0 0 20 10, ⟨0, 0⟩, ⟨⟨0, 0⟩, [[]]⟩, false⟩
        ⟨0, 19⟩).toOption.map
      (fun p => p.1.buffer_display_offset.y) = some 10) ∧
    (((EditArea.move_caret_to
        ⟨⟨⟨0, 0⟩, List.replicate 20 []⟩, Area.new 0 0 20 10, ⟨0, 0⟩, ⟨⟨0, 0⟩, [[]]⟩, false⟩
        ⟨0, 19⟩).toOption.bind
      (fun p => (p.1.move_caret_to ⟨0, 0⟩).toOption)).map
      (fun q => q.1.buffer_display_offset.y) = some 0) := by decide

/-- C6 counterexample: at display height 6 (= 2·VERTICAL_PADDING) with 6 lines,
caret on line 5 and offset.y = 3, the first reconciliation yields offset.y = 2
and the second call changes the offset again (to 0) and returns true, so two
consecutive calls are not idempotent. -/
theorem c6_counterexample_h6 :
    letI a : EditArea :=
      ⟨⟨⟨0, 5⟩, List.replicate 6 []⟩, Area.new 0 0 20 6, ⟨0, 3⟩, ⟨⟨0, 0⟩, [[]]⟩, false⟩
    a.update_display_offset.1.buffer_display_offset.y = 2 ∧
    a.update_display_offset.2 = true ∧
    a.update_display_offset.1.update_display_offset.2 = true ∧
    a.update_display_offset.1.update_display_offset.1.buffer_display_offset.y = 0 := by
  decide

/-- C7: `print_welcome_to` fails with `BufferSizeExceeds` exactly when the display
area's size is not strictly greater than the welcome buffer's size under the
partial order; a (40,5) welcome buffer is rejected by a (40,5) area (merely
equal) and accepted by a (41,6) area. -/
theorem c7_welcome_fit_check :
    (∀ a : EditArea,
      a.print_welcome_to =
          .error (.bufferSizeExceeds a.welcome_buffer.size a.display_area.size) ↔
        ¬ Size.partCmp a.display_area.size a.welcome_buffer.size = some .gt) ∧
    (EditArea.print_welcome_to
      ⟨⟨⟨0, 0⟩, [[]]⟩, Area.new 0 0 40 5, ⟨0, 0⟩,
        ⟨⟨0, 0⟩, [List.replicate 40 'a', [], [], [], []]⟩, false⟩ =
      .error (.bufferSizeExceeds ⟨40, 5⟩ ⟨40, 5⟩)) ∧
    (EditArea.print_welcome_to
      ⟨⟨⟨0, 0⟩, [[]]⟩, Area.new 0 0 41 6, ⟨0, 0⟩,
        ⟨⟨0, 0⟩, [List.replicate 40 'a', [], [], [], []]⟩, false⟩ = .ok ()) := by
  refine ⟨?_, by decide, by decide⟩
  intro a
  unfold EditArea.print_welcome_to
  split_ifs with h <;> simp [h]

/-- C8: `Size::partial_cmp` yields `Less`/`Greater` exactly when both dimensions
are strictly smaller/larger, `Equal` exactly when both agree, and `None` in
every remaining case. -/
theorem c8_size_partial_order :
    ∀ a b : Size,
      (Size.partCmp a b = some .lt ↔ a.width < b.width ∧ a.height < b.height) ∧
      (Size.partCmp a b = some .gt ↔ b.width < a.width ∧ b.height < a.height) ∧
      (Size.partCmp a b = some .eq ↔ a.width = b.width ∧ a.height = b.height) ∧
      (Size.partCmp a b = none ↔
        ¬(a.width < b.width ∧ a.height < b.height) ∧
        ¬(b.width < a.width ∧ b.height < a.height) ∧
        ¬(a.width = b.width ∧ a.height = b.height)) := by
  intro a b
  unfold Size.partCmp
  split_ifs with h1 h2 h3 <;> refine ⟨?_, ?_, ?_, ?_⟩ <;> simp_all <;> omega

/-- C9 counterexample: with the display area at origin (5,7), a successful caret
move to (1,0) returns screen location (1,0) — caret minus offset, clamped — and
not the origin-translated (6,7) the claim requires. -/
theorem c9_counterexample_origin :
    letI a : EditArea :=
      ⟨⟨⟨0, 0⟩, [['a']]⟩, Area.new 5 7 20 10, ⟨0, 0⟩, ⟨⟨0, 0⟩, [[]]⟩, false⟩
    ((a.move_caret_to ⟨1, 0⟩).toOption.map Prod.snd = some ⟨1, 0⟩) ∧
    ¬((a.move_caret_to ⟨1, 0⟩).toOption.map Prod.snd = some ⟨1 + 5, 0 + 7⟩) := by
  decide

set_option maxHeartbeats 2000000 in
/-- The vertical reconciliation is a projection (second application fixed) whenever
the caret row is a real line and the display height is not 2·VERTICAL_PADDING. -/
theorem vOffset_idem (H L cy y : Nat) (hcy : cy < L) (hH : H ≠ 2 * VERTICAL_PADDING) :
    vOffset H L cy (if 2 * VERTICAL_PADDING ≤ H then VERTICAL_PADDING else 0)
      (vOffset H L cy (if 2 * VERTICAL_PADDING ≤ H then VERTICAL_PADDING else 0) y) =
    vOffset H L cy (if 2 * VERTICAL_PADDING ≤ H then VERTICAL_PADDING else 0) y := by
  simp only [vOffset, VERTICAL_PADDING] at *
  split_ifs <;> omega

set_option maxHeartbeats 2000000 in
/-- The horizontal reconciliation is a projection (second application fixed). -/
theorem hOffset_idem (W cx x : Nat) :
    hOffset W cx (if 2 * HORIZONTAL_PADDING ≤ W then HORIZONTAL_PADDING else 0)
      (hOffset W cx (if 2 * HORIZONTAL_PADDING ≤ W then HORIZONTAL_PADDING else 0) x) =
    hOffset W cx (if 2 * HORIZONTAL_PADDING ≤ W then HORIZONTAL_PADDING else 0) x := by
  simp only [hOffset, HORIZONTAL_PADDING] at *
  split_ifs <;> omega

/-- C6 amended: for every state whose caret row is a real line and whose display
height is not exactly 2·VERTICAL_PADDING = 6, a second `update_display_offset`
with no intervening change keeps the offset produced by the first call and
returns false.  (At height 6 this fails: see the counterexample.) -/
theorem c6_second_update_no_change :
    ∀ a : EditArea,
      a.buffer.caret.y < a.buffer.lines_num →
      a.display_area.size.height ≠ 2 * VERTICAL_PADDING →
      a.update_display_offset.1.update_display_offset =
        (a.update_display_offset.1, false) := by
  intro a hcy hH
  have hv := vOffset_idem a.display_area.size.height a.buffer.lines_num
    a.buffer.caret.y a.buffer_display_offset.y hcy hH
  have hx := hOffset_idem a.display_area.size.width a.buffer.caret.x
    a.buffer_display_offset.x
  simp only [EditArea.update_display_offset, Area.height, Area.width, Buffer.lines_num] at *
  simp only [Prod.mk.injEq]
  refine ⟨?_, ?_⟩
  · rw [hx, hv]
  · simp only [hx, hv]
    simp

/-- C6 witness: a concrete state (height 10, one line, caret (0,0)) satisfying the
hypotheses, on which the second reconciliation indeed reports no change. -/
theorem c6_second_update_no_change_witness :
    letI a : EditArea :=
      ⟨⟨⟨0, 0⟩, [[]]⟩, Area.new 0 0 20 10, ⟨0, 0⟩, ⟨⟨0, 0⟩, [[]]⟩, false⟩
    a.buffer.caret.y < a.buffer.lines_num ∧
    a.display_area.size.height ≠ 2 * VERTICAL_PADDING ∧
    a.update_display_offset.1.update_display_offset = (a.update_display_offset.1, false) :=
  ⟨by decide, by decide, c6_second_update_no_change _ (by decide) (by decide)⟩

/-- C9 amended: the screen location returned by a successful `move_caret_to`
equals the caret minus the post-move offset (saturating subtraction), clamped
into [0,width]×[0,height] — with **no** translation by the display area's
origin (that translation is applied later, by `print_to`). -/
theorem c9_cursor_formula :
    ∀ (a : EditArea) (c : Location) (p : EditArea × Location),
      a.move_caret_to c = .ok p →
      p.2 = ⟨min (c.x - p.1.buffer_display_offset.x) a.display_area.size.width,
             min (c.y - p.1.buffer_display_offset.y) a.display_area.size.height⟩ := by
  intro a c p h
  unfold EditArea.move_caret_to at h
  cases hc : a.buffer.check_caret c with
  | error e => rw [hc] at h; exact absurd h (by simp)
  | ok u =>
    rw [hc] at h
    simp only at h
    cases h
    simp only [EditArea.update_display_offset, Buffer.seek_unchecked, Buffer.lines_num]
    split_ifs with h1 <;>
      simp [EditArea.get_cursor, Area.width, Area.height]

/-- C9 witness: the amended cursor formula at a concrete successful move (display
area at origin (5,7), caret moved to (1,0)). -/
theorem c9_cursor_formula_witness :
    EditArea.move_caret_to
        ⟨⟨⟨0, 0⟩, [['a']]⟩, Area.new 5 7 20 10, ⟨0, 0⟩, ⟨⟨0, 0⟩, [[]]⟩, false⟩ ⟨1, 0⟩ =
      .ok (⟨⟨⟨1, 0⟩, [['a']]⟩, Area.new 5 7 20 10, ⟨0, 0⟩, ⟨⟨0, 0⟩, [[]]⟩, false⟩, ⟨1, 0⟩) ∧
    (⟨1, 0⟩ : Location) = ⟨min (1 - 0) 20, min (0 - 0) 10⟩ :=
  ⟨by decide,
    c9_cursor_formula
      ⟨⟨⟨0, 0⟩, [['a']]⟩, Area.new 5 7 20 10, ⟨0, 0⟩, ⟨⟨0, 0⟩, [[]]⟩, false⟩ ⟨1, 0⟩
      (⟨⟨⟨1, 0⟩, [['a']]⟩, Area.new 5 7 20 10, ⟨0, 0⟩, ⟨⟨0, 0⟩, [[]]⟩, false⟩, ⟨1, 0⟩)
      (by decide)⟩

/-- C10: `Buffer::new` and `Buffer::load` always leave at least one line; `clear`
leaves zero lines and caret (0,0); the one-line minimum returns only once a
subsequent `load` or `ensure_current_line` runs. -/
theorem c10_one_line_invariant :
    1 ≤ Buffer.new.lines_num ∧
    (∀ (b : Buffer) (s : List Char), 1 ≤ (b.load s).lines_num) ∧
    (∀ b : Buffer, b.clear.lines_num = 0 ∧ b.clear.caret = ⟨0, 0⟩) ∧
    (∀ b : Buffer, 1 ≤ b.clear.ensure_current_line.lines_num) ∧
    (∀ (b : Buffer) (s : List Char), 1 ≤ (b.clear.load s).lines_num) := by
  have key : ∀ b : Buffer, 1 ≤ b.ensure_current_line.lines.length := fun b =>
    Nat.lt_of_le_of_lt (Nat.zero_le b.caret.y) (caret_lt_ensure_current_line b)
  refine ⟨?_, ?_, ?_, ?_, ?_⟩
  · rw [new_eq_one_empty_line]
    decide
  · intro b s
    simp only [Buffer.load, Buffer.lines_num]
    exact key _
  · intro b
    exact ⟨rfl, rfl⟩
  · intro b
    exact key _
  · intro b s
    simp only [Buffer.load, Buffer.lines_num]
    exact key _

end Vegetor
